import Mathlib

/-!
# Verification of `transformarpdf` (src/app.py)

The application is a Streamlit front end that converts an uploaded PDF to a
Word document, either through a structural ("digital") conversion or through
OCR of rasterized pages.  Its non-delegated logic is:

* `parse_page_range` (app.py lines 80-100): a comma-separated page-range
  parser producing a sorted, de-duplicated, 0-indexed page list;
* the mode dispatch (app.py lines 209-215) choosing between `convert_digital`
  and `convert_ocr`;
* `convert_ocr` (app.py lines 114-161): rasterize a contiguous page range and
  assemble per-page OCR text into a document of headings/paragraphs/breaks;
* the dependency check and sidebar diagnostics (app.py lines 38-69).

Python strings are modelled as `List Char`; a Python `set` of page indices is
modelled as a duplicate-free `List ℕ` (Python sets are unordered, and the code
only observes the set through `sorted(list(pages))`, so the list order of the
model is immaterial); the exception behaviour of `try`/`except` is modelled
with `Option`.  External library calls (`pdf2image.convert_from_bytes`,
`pytesseract.image_to_string`) are modelled abstractly; their models carry
doc comments.
-/

namespace TransformarPdf

/-- The character list of a string literal; Python strings are `List Char`. -/
def chars (s : String) : List Char := s.toList

/-- Python `str.split(sep)` for a one-character separator `sep`: splitting
the empty string yields one empty token, and `a,,b` split at the comma
yields `a`, an empty token, and `b`. -/
def splitOnChar (sep : Char) : List Char → List (List Char)
  | [] => [[]]
  | c :: rest =>
    if c = sep then [] :: splitOnChar sep rest
    else
      match splitOnChar sep rest with
      | [] => [[c]]
      | t :: ts => (c :: t) :: ts

/-- Python `str.strip()` as performed by `int()`: remove leading and trailing
whitespace. -/
def stripWs (s : List Char) : List Char :=
  ((s.dropWhile Char.isWhitespace).reverse.dropWhile Char.isWhitespace).reverse

/-- Numeric value of a list of decimal digits. -/
def digitsVal (l : List Char) : Nat :=
  l.foldl (fun a c => 10 * a + (c.toNat - Char.toNat '0')) 0

/-- Python `int(s)` on a string: optional surrounding whitespace, optional
sign, then a non-empty run of decimal digits; `none` models the `ValueError`
exception.  (Underscore digit grouping and non-ASCII digits are not
modelled; no input in this development uses them.) -/
def pyInt? (s : List Char) : Option Int :=
  match stripWs s with
  | [] => none
  | c :: rest =>
    if c = '-' then
      if !rest.isEmpty && rest.all Char.isDigit then some (-(digitsVal rest : Int)) else none
    else if c = '+' then
      if !rest.isEmpty && rest.all Char.isDigit then some ((digitsVal rest : Int)) else none
    else if (c :: rest).all Char.isDigit then some ((digitsVal (c :: rest) : Int)) else none

/-- A numerically parsed token of the page-range string: either a single page
number, or a `start`/`stop` pair coming from a token containing a dash. -/
inductive NumTok where
  | single (page : Int)
  | rng (start stop : Int)
deriving DecidableEq

/-- The parsing part of the `for part in parts` loop body of
`parse_page_range` (app.py lines 89-90 and 94): a token containing a dash is
split at the dash and both halves are converted with `int` (unpacking fails
unless there are exactly two halves); any other token is converted with `int`
directly.  `none` models an exception escaping the loop. -/
def numTok? (part : List Char) : Option NumTok :=
  if '-' ∈ part then
    match splitOnChar '-' part with
    | [s, e] =>
      match pyInt? s, pyInt? e with
      | some start, some stop => some (NumTok.rng start stop)
      | _, _ => none
    | _ => none
  else (pyInt? part).map NumTok.single

/-- Python `set.add`: add one element to the (duplicate-free list model of the)
Python set. -/
def setAdd (x : Nat) (pages : List Nat) : List Nat :=
  if x ∈ pages then pages else x :: pages

/-- Python `set.update(iterable)`: add every element of a list to the Python set. -/
def setUpdate (l : List Nat) (pages : List Nat) : List Nat :=
  l.foldl (fun acc p => setAdd p acc) pages

/-- The guarded update of the `pages` set by one numerically parsed token
(app.py lines 91-92 and 95-96): an in-range `a-b` token adds `range(a-1, b)`
(the 0-indexed pages `a-1 … b-1`, a list of length `b - (a-1)`), an in-range
single token `k` adds `k-1`, and an out-of-range token adds nothing. -/
def applyTok (max_pages : Nat) (pages : List Nat) : NumTok → List Nat
  | NumTok.single page =>
    if 0 < page ∧ page ≤ (max_pages : Int) then
      setAdd (page.toNat - 1) pages
    else pages
  | NumTok.rng start stop =>
    if 0 < start ∧ stop ≤ (max_pages : Int) ∧ start ≤ stop then
      setUpdate (List.range' (start.toNat - 1) (stop.toNat - (start.toNat - 1))) pages
    else pages

/-- The `for part in parts` loop body of `parse_page_range` (app.py lines
88-96) acting on the accumulated `pages` set: parse the token numerically
(`none` models an exception escaping the loop), then apply the guarded
update. -/
def processPart (max_pages : Nat) (pages : List Nat) (part : List Char) :
    Option (List Nat) :=
  (numTok? part).map (applyTok max_pages pages)

/-- Function `parse_page_range` (app.py lines 80-100): convert a string such as
`1, 3-5` into the 0-indexed sorted page list `[0, 2, 3, 4]`; an empty
string or an exception during parsing yields all pages
`list(range(max_pages))`. -/
def parse_page_range (range_str : List Char) (max_pages : Nat) : List Nat :=
  if range_str = [] then List.range max_pages
  else
    match (splitOnChar ',' range_str).foldlM (processPart max_pages) [] with
    | some pages => List.insertionSort (· ≤ ·) pages
    | none => List.range max_pages

/-- The set of 0-indexed pages denoted by one claim-valid numeric token,
following the specification: a single 1-based page number `k` with
`1 ≤ k ≤ max_pages` denotes `{k-1}`, and an inclusive 1-based range `a-b`
with `1 ≤ a ≤ b ≤ max_pages` denotes `{a-1, …, b-1}`; an out-of-range token
is not claim-valid (`none`). -/
def tokDen? (max_pages : Nat) : NumTok → Option (Finset Nat)
  | NumTok.single page =>
    if 0 < page ∧ page ≤ (max_pages : Int) then some {page.toNat - 1} else none
  | NumTok.rng start stop =>
    if 0 < start ∧ stop ≤ (max_pages : Int) ∧ start ≤ stop then
      some (Finset.Ico (start.toNat - 1) stop.toNat)
    else none

/-- The set of 0-indexed pages denoted by one claim-valid token string: the
token must parse numerically and be in range. -/
def tokenDen? (max_pages : Nat) (part : List Char) : Option (Finset Nat) :=
  (numTok? part).bind (tokDen? max_pages)

/-! ## Mode dispatch (app.py lines 63-69 and 203-215) -/

/-- Whether the first list is a leading segment of the second. -/
def startsWithList : List Char → List Char → Bool
  | [], _ => true
  | _ :: _, [] => false
  | a :: as, b :: bs => a = b && startsWithList as bs

/-- Python substring containment `needle in hay` on strings. -/
def containsSub (needle : List Char) : List Char → Bool
  | [] => needle.isEmpty
  | c :: rest => startsWithList needle (c :: rest) || containsSub needle rest

/-- The first option of the `st.sidebar.radio` mode selector (app.py line
66), the default (`index=0`). -/
def modo_digital : List Char := chars "Digital (Formato perfecto, rápido)"

/-- The second option of the `st.sidebar.radio` mode selector (app.py line
66). -/
def modo_escaneado : List Char := chars "Escaneado (OCR, más lento)"

/-- The conversion call issued by the main branch: `convert_digital(pdf_bytes,
pages_list)` (app.py line 211) or `convert_ocr(pdf_bytes, lang, pages_list)`
(app.py line 215).  Only the OCR constructor carries the language code. -/
inductive ConvCall where
  | digital (pdf_bytes : List Nat) (pages : List Nat)
  | ocr (pdf_bytes : List Nat) (lang_code : List Char) (pages : List Nat)
deriving DecidableEq

/-- The conversion dispatch of the main branch (app.py lines 203-215): an
empty parsed page list is rejected with an error and no strategy runs
(`none`); otherwise the branch on `modo_conversion` calls `convert_digital`
when the selected option contains the substring `Digital`, else
`convert_ocr` when it contains `Escaneado`, and nothing on fall-through
(`none`). -/
def select_conversion (modo : List Char) (pdf_bytes : List Nat)
    (lang : List Char) (pages_list : List Nat) : Option ConvCall :=
  if pages_list = [] then none
  else if containsSub (chars "Digital") modo then
    some (ConvCall.digital pdf_bytes pages_list)
  else if containsSub (chars "Escaneado") modo then
    some (ConvCall.ocr pdf_bytes lang pages_list)
  else none

/-! ## `convert_ocr` (app.py lines 114-161) -/

/-- One element of the Word document assembled by `convert_ocr` through
python-docx: `add_heading(text, level)`, `add_paragraph(text)`,
`add_page_break()`. -/
inductive Block where
  | heading (text : List Char) (level : Nat)
  | paragraph (text : List Char)
  | pageBreak
deriving DecidableEq

/-- Python `min` on a list of naturals (`convert_ocr` only applies it to a
non-empty list; the `[]` value is junk, Python would raise). -/
def pyMin : List Nat → Nat
  | [] => 0
  | x :: xs => xs.foldl Nat.min x

/-- Python `max` on a list of naturals (same remark as `pyMin`). -/
def pyMax : List Nat → Nat
  | [] => 0
  | x :: xs => xs.foldl Nat.max x

/-- Modelled semantics of the external rasterizer call
`pdf2image.convert_from_bytes(pdf_bytes, fmt=jpeg, thread_count=4,
first_page, last_page)` (app.py lines 121-127): the images of the 1-indexed
pages `first_page … last_page` — an inclusive contiguous range, clipped to
the `num_pages` pages the document actually has — in page order.  Each image
is represented by the page number it depicts. -/
def convert_from_bytes (num_pages first_page last_page : Nat) : List Nat :=
  (List.range' first_page (last_page + 1 - first_page)).filter
    (fun p => p ≤ num_pages)

/-- Function `convert_ocr` (app.py lines 114-161), with the two external binaries
abstracted: `num_pages` is the page count of the uploaded PDF and
`image_to_string p` is the text the external OCR call
`pytesseract.image_to_string(img, lang=lang_code)` extracts from the image
of page `p`.  The function converts the 0-indexed selection to 1-indexed
page numbers, rasterizes the contiguous range from their `min` to their
`max`, and emits a title heading followed by, per image `i` (whose page
number is `i + min`), a level-3 heading, a paragraph of OCR text and a page
break. -/
def convert_ocr (num_pages : Nat) (image_to_string : Nat → List Char)
    (lang_code : List Char) (pages_to_convert : List Nat) : List Block :=
  let pages_1_indexed := pages_to_convert.map (· + 1)
  let images := convert_from_bytes num_pages
    (pyMin pages_1_indexed) (pyMax pages_1_indexed)
  Block.heading (chars "Documento Convertido por OCR (" ++ lang_code ++ chars ")") 0 ::
    (images.enum.map (fun ip =>
      [Block.heading
          (chars "--- Página " ++ Nat.toDigits 10 (ip.1 + pyMin pages_1_indexed) ++
            chars " ---") 3,
       Block.paragraph (image_to_string ip.2),
       Block.pageBreak])).flatten

/-- The paragraph text of a document block, when the block is a paragraph. -/
def paraText? : Block → Option (List Char)
  | Block.paragraph t => some t
  | _ => none

/-! ## Dependency check and sidebar diagnostics (app.py lines 38-61) -/

/-- Severity of a Streamlit sidebar message: `st.sidebar.success`, `.error`,
`.info`, `.warning`. -/
inductive MsgKind where
  | success
  | error
  | info
  | warning
deriving DecidableEq

/-- A sidebar message: its severity and its text. -/
structure SidebarMsg where
  kind : MsgKind
  text : List Char
deriving DecidableEq

/-- Flag `ocr_disabled` (app.py line 59): the OCR mode is unavailable unless both
`shutil.which` of `tesseract` and of `pdftoppm` succeeded.  This
is exactly the value passed to the `disabled` argument of the mode radio
widget (app.py line 68). -/
def ocr_disabled (tesseract_ok poppler_ok : Bool) : Bool :=
  !(tesseract_ok && poppler_ok)

/-- The sidebar messages emitted by the dependency check (app.py lines 42-52)
and the OCR availability warning (app.py lines 60-61), as a function of
whether the two external binaries were found on the PATH. -/
def sidebar_msgs (tesseract_ok poppler_ok : Bool) : List SidebarMsg :=
  (if tesseract_ok then
    [⟨MsgKind.success, chars "Tesseract (OCR) detectado."⟩]
  else
    [⟨MsgKind.error, chars "Tesseract NO encontrado."⟩,
     ⟨MsgKind.info, chars "Instala Tesseract-OCR en tu sistema para habilitar la conversión de PDFs escaneados."⟩]) ++
  (if poppler_ok then
    [⟨MsgKind.success, chars "Poppler (PDF) detectado."⟩]
  else
    [⟨MsgKind.error, chars "Poppler NO encontrado."⟩,
     ⟨MsgKind.info, chars "Instala Poppler en tu sistema para habilitar la conversión de PDFs escaneados."⟩]) ++
  (if ocr_disabled tesseract_ok poppler_ok then
    [⟨MsgKind.warning, chars "Modo OCR deshabilitado. Ver \x27Estado del Sistema\x27."⟩]
  else [])

/-! ## Helper lemmas about the page-set model and the parsing loop -/

theorem mem_setAdd {x n : Nat} {pages : List Nat} :
    n ∈ setAdd x pages ↔ n = x ∨ n ∈ pages := by
  unfold setAdd
  split_ifs with h
  · exact ⟨fun hn => Or.inr hn, fun hn => hn.elim (fun e => e ▸ h) id⟩
  · simp [List.mem_cons]

theorem nodup_setAdd {x : Nat} {pages : List Nat} (h : pages.Nodup) :
    (setAdd x pages).Nodup := by
  unfold setAdd
  split_ifs with hx
  · exact h
  · exact List.nodup_cons.mpr ⟨hx, h⟩

theorem mem_setUpdate {n : Nat} : ∀ (l pages : List Nat),
    n ∈ setUpdate l pages ↔ n ∈ pages ∨ n ∈ l
  | [], pages => by simp [setUpdate]
  | x :: l, pages => by
    have ih := @mem_setUpdate n l (setAdd x pages)
    simp only [setUpdate, List.foldl_cons] at ih ⊢
    rw [ih, mem_setAdd]
    simp only [List.mem_cons]
    tauto

theorem nodup_setUpdate : ∀ (l pages : List Nat), pages.Nodup → (setUpdate l pages).Nodup
  | [], _, h => h
  | x :: l, pages, h => by
    have ih := nodup_setUpdate l (setAdd x pages) (nodup_setAdd h)
    simpa only [setUpdate, List.foldl_cons] using ih

theorem mem_applyTok {m : Nat} {pages : List Nat} {n : Nat} (t : NumTok) :
    n ∈ applyTok m pages t ↔ n ∈ pages ∨ n ∈ (tokDen? m t).getD ∅ := by
  cases t with
  | single page =>
    simp only [applyTok, tokDen?]
    split_ifs with hg
    · rw [mem_setAdd]
      simp only [Option.getD_some, Finset.mem_singleton]
      tauto
    · simp
  | rng start stop =>
    simp only [applyTok, tokDen?]
    split_ifs with hg
    · rw [mem_setUpdate, List.mem_range'_1]
      have harith : start.toNat - 1 + (stop.toNat - (start.toNat - 1)) = stop.toNat := by
        omega
      simp only [Option.getD_some, Finset.mem_Ico, harith]
    · simp

theorem nodup_applyTok {m : Nat} {pages : List Nat} (t : NumTok)
    (hn : pages.Nodup) : (applyTok m pages t).Nodup := by
  cases t with
  | single page =>
    simp only [applyTok]
    split_ifs with hg
    · exact nodup_setAdd hn
    · exact hn
  | rng start stop =>
    simp only [applyTok]
    split_ifs with hg
    · exact nodup_setUpdate _ _ hn
    · exact hn

theorem tokDen_getD_lt {m : Nat} {t : NumTok} {n : Nat}
    (h : n ∈ (tokDen? m t).getD ∅) : n < m := by
  cases t with
  | single page =>
    simp only [tokDen?] at h
    split_ifs at h with hg
    · simp only [Option.getD_some, Finset.mem_singleton] at h
      omega
    · simp at h
  | rng start stop =>
    simp only [tokDen?] at h
    split_ifs at h with hg
    · simp only [Option.getD_some, Finset.mem_Ico] at h
      omega
    · simp at h

theorem processPart_none_iff {m : Nat} {pages : List Nat} {part : List Char} :
    processPart m pages part = none ↔ numTok? part = none := by
  simp [processPart]

theorem tokenDen_isSome_numTok {m : Nat} {part : List Char}
    (h : (tokenDen? m part).isSome) : (numTok? part).isSome := by
  unfold tokenDen? at h
  cases ht : numTok? part with
  | none => rw [ht] at h; simp at h
  | some t => rfl

theorem tokenDen_getD_eq {m : Nat} {part : List Char} {t : NumTok}
    (ht : numTok? part = some t) :
    (tokenDen? m part).getD ∅ = (tokDen? m t).getD ∅ := by
  simp [tokenDen?, ht]

theorem tokenDen_getD_lt {m : Nat} {part : List Char} {n : Nat}
    (h : n ∈ (tokenDen? m part).getD ∅) : n < m := by
  unfold tokenDen? at h
  cases ht : numTok? part with
  | none => rw [ht] at h; simp at h
  | some t =>
    rw [ht, Option.some_bind] at h
    exact @tokDen_getD_lt m t n h

theorem processPart_some_mem {m : Nat} {pages q : List Nat} {part : List Char}
    (h : processPart m pages part = some q) (n : Nat) :
    n ∈ q ↔ n ∈ pages ∨ n ∈ (tokenDen? m part).getD ∅ := by
  unfold processPart at h
  cases ht : numTok? part with
  | none => rw [ht] at h; exact absurd h (by simp)
  | some t =>
    rw [ht, Option.map_some'] at h
    obtain rfl : applyTok m pages t = q := Option.some.inj h
    rw [mem_applyTok t, tokenDen_getD_eq ht]

theorem processPart_some_nodup {m : Nat} {pages q : List Nat} {part : List Char}
    (h : processPart m pages part = some q) (hn : pages.Nodup) : q.Nodup := by
  unfold processPart at h
  cases ht : numTok? part with
  | none => rw [ht] at h; exact absurd h (by simp)
  | some t =>
    rw [ht, Option.map_some'] at h
    exact Option.some.inj h ▸ nodup_applyTok t hn

theorem foldlM_processPart_none {m : Nat} :
    ∀ (parts : List (List Char)) (pages : List Nat),
      (∃ p ∈ parts, numTok? p = none) →
      List.foldlM (processPart m) pages parts = none
  | [], pages => by simp
  | part :: parts, pages => by
    rintro ⟨p, hp, hnone⟩
    rw [List.foldlM_cons]
    cases hq : processPart m pages part with
    | none => simp [hq]
    | some q =>
      have hpart : numTok? part ≠ none := fun hcon =>
        (by simp [processPart_none_iff.mpr hcon] at hq : False)
      rcases List.mem_cons.mp hp with rfl | hp'
      · exact absurd hnone hpart
      · simp only [hq, Option.bind_eq_bind, Option.some_bind]
        exact foldlM_processPart_none parts q ⟨p, hp', hnone⟩

theorem foldlM_processPart_some {m : Nat} :
    ∀ (parts : List (List Char)) (pages : List Nat),
      (∀ p ∈ parts, (numTok? p).isSome) →
      ∃ S, List.foldlM (processPart m) pages parts = some S ∧
        ∀ n, n ∈ S ↔ n ∈ pages ∨ ∃ p ∈ parts, n ∈ (tokenDen? m p).getD ∅
  | [], pages => fun _ => ⟨pages, by simp⟩
  | part :: parts, pages => by
    intro h
    have hpart : (numTok? part).isSome := h part (List.mem_cons_self _ _)
    cases hq : processPart m pages part with
    | none =>
      rw [processPart_none_iff] at hq
      rw [hq] at hpart
      simp at hpart
    | some q =>
      obtain ⟨S, hS, hmem⟩ :=
        foldlM_processPart_some parts q (fun p hp => h p (List.mem_cons_of_mem _ hp))
      refine ⟨S, ?_, ?_⟩
      · rw [List.foldlM_cons]
        simp only [hq, Option.bind_eq_bind, Option.some_bind]
        exact hS
      · intro n
        rw [hmem n, processPart_some_mem hq n]
        simp only [List.mem_cons]
        constructor
        · rintro ((hn | hn) | ⟨p, hp, hn⟩)
          · exact Or.inl hn
          · exact Or.inr ⟨part, Or.inl rfl, hn⟩
          · exact Or.inr ⟨p, Or.inr hp, hn⟩
        · rintro (hn | ⟨p, rfl | hp, hn⟩)
          · exact Or.inl (Or.inl hn)
          · exact Or.inl (Or.inr hn)
          · exact Or.inr ⟨p, hp, hn⟩

theorem foldlM_processPart_nodup_bound {m : Nat} :
    ∀ (parts : List (List Char)) (pages S : List Nat),
      List.foldlM (processPart m) pages parts = some S →
      (pages.Nodup → S.Nodup) ∧ (∀ n ∈ S, n ∈ pages ∨ n < m)
  | [], pages, S => by
    intro h
    obtain rfl : pages = S := Option.some.inj h
    exact ⟨id, fun n hn => Or.inl hn⟩
  | part :: parts, pages, S => by
    intro h
    rw [List.foldlM_cons] at h
    cases hq : processPart m pages part with
    | none => rw [hq] at h; simp at h
    | some q =>
      rw [hq] at h
      simp only [Option.bind_eq_bind, Option.some_bind] at h
      obtain ⟨hnd, hbd⟩ := foldlM_processPart_nodup_bound parts q S h
      refine ⟨fun hp => hnd (processPart_some_nodup hq hp), fun n hn => ?_⟩
      rcases hbd n hn with hq' | hlt
      · rcases (processPart_some_mem hq n).mp hq' with hp | hden
        · exact Or.inl hp
        · exact Or.inr (tokenDen_getD_lt hden)
      · exact Or.inr hlt

theorem numTok_nil : numTok? [] = none := by decide

theorem tokenDen_nil (m : Nat) : tokenDen? m [] = none := by
  unfold tokenDen?
  rw [numTok_nil, Option.none_bind]

theorem sorted_lt_insertionSort {S : List Nat} (hnd : S.Nodup) :
    List.Sorted (· < ·) (List.insertionSort (· ≤ ·) S) :=
  (List.sorted_insertionSort _ S).lt_of_le
    ((List.perm_insertionSort _ S).nodup_iff.mpr hnd)

theorem splitOnChar_ne_nil (sep : Char) : ∀ s : List Char, splitOnChar sep s ≠ []
  | [] => by simp [splitOnChar]
  | c :: rest => by
    unfold splitOnChar
    split_ifs
    · simp
    · rcases hr : splitOnChar sep rest with _ | ⟨t, ts⟩ <;> simp

theorem parse_nil (max_pages : Nat) :
    parse_page_range [] max_pages = List.range max_pages := rfl

theorem parse_eq_of_fold_none {range_str : List Char} {max_pages : Nat}
    (hne : range_str ≠ [])
    (hf : (splitOnChar ',' range_str).foldlM (processPart max_pages) [] = none) :
    parse_page_range range_str max_pages = List.range max_pages := by
  unfold parse_page_range
  rw [if_neg hne, hf]

theorem parse_eq_of_fold_some {range_str : List Char} {max_pages : Nat}
    {S : List Nat} (hne : range_str ≠ [])
    (hf : (splitOnChar ',' range_str).foldlM (processPart max_pages) [] = some S) :
    parse_page_range range_str max_pages = List.insertionSort (· ≤ ·) S := by
  unfold parse_page_range
  rw [if_neg hne, hf]

/-! ## Claims about `parse_page_range` -/

/-- C1: For every input string consisting only of valid comma-separated
tokens, where each token is either a single 1-based page number `k` with
`1 ≤ k ≤ max_pages` or an inclusive 1-based range `a-b` with
`1 ≤ a ≤ b ≤ max_pages`, `parse_page_range` returns exactly the 0-indexed
union of the tokens — `{k-1}` for a single token and `{a-1, …, b-1}` for a
range token — as a sorted list. -/
theorem parse_page_range_valid_tokens (range_str : List Char) (max_pages : Nat)
    (h : ∀ p ∈ splitOnChar ',' range_str, (tokenDen? max_pages p).isSome) :
    List.Sorted (· < ·) (parse_page_range range_str max_pages) ∧
      ∀ n, n ∈ parse_page_range range_str max_pages ↔
        ∃ p ∈ splitOnChar ',' range_str, n ∈ (tokenDen? max_pages p).getD ∅ := by
  have hne : range_str ≠ [] := by
    intro hemp
    subst hemp
    have hcon := h [] (by simp [splitOnChar])
    rw [tokenDen_nil] at hcon
    simp at hcon
  obtain ⟨S, hS, hmem⟩ := @foldlM_processPart_some max_pages
    (splitOnChar ',' range_str) [] (fun p hp => tokenDen_isSome_numTok (h p hp))
  rw [parse_eq_of_fold_some hne hS]
  constructor
  · exact sorted_lt_insertionSort
      ((foldlM_processPart_nodup_bound _ _ _ hS).1 List.nodup_nil)
  · intro n
    rw [(List.perm_insertionSort (· ≤ ·) S).mem_iff, hmem n]
    simp

/-- Witness for C1: on the input `1, 3-5` with 9 pages, every token is
valid and the result contains page index 2 exactly as the token union does. -/
theorem parse_page_range_valid_tokens_witness :
    (∀ p ∈ splitOnChar ',' (chars "1, 3-5"), (tokenDen? 9 p).isSome) ∧
      (2 ∈ parse_page_range (chars "1, 3-5") 9 ↔
        ∃ p ∈ splitOnChar ',' (chars "1, 3-5"), 2 ∈ (tokenDen? 9 p).getD ∅) :=
  ⟨by decide, (parse_page_range_valid_tokens (chars "1, 3-5") 9 (by decide)).2 2⟩

/-- C2: For every `max_pages`, `parse_page_range` applied to an empty input
string returns the list of all pages `[0, 1, …, max_pages-1]`. -/
theorem parse_page_range_empty (max_pages : Nat) :
    parse_page_range [] max_pages = List.range max_pages :=
  parse_nil max_pages

/-- Counterexample to C3 as stated: with `max_pages = 3`, the token `2-5`
has its upper endpoint out of range; clamping it to `[1, 3]` would yield the
pages `[1, 2]`, but `parse_page_range` discards the whole token and returns
the empty list. -/
theorem parse_page_range_clamp_counterexample :
    parse_page_range (chars "2-5") 3 = [] ∧
      parse_page_range (chars "2-5") 3 ≠ [1, 2] :=
  ⟨by decide, by decide⟩

/-- C3 (amended): a numeric token whose endpoints do not satisfy
`1 ≤ start ∧ stop ≤ max_pages ∧ start ≤ stop` is silently discarded in
full — it contributes no pages at all — rather than being clamped into
range: on an input all of whose tokens parse numerically, the result is
exactly the union of the denotations of the in-range tokens only
(`tokenDen?` is `none` on every out-of-range token). -/
theorem parse_page_range_drops_out_of_range (range_str : List Char)
    (max_pages : Nat)
    (h : ∀ p ∈ splitOnChar ',' range_str, (numTok? p).isSome) :
    ∀ n, n ∈ parse_page_range range_str max_pages ↔
      ∃ p ∈ splitOnChar ',' range_str, n ∈ (tokenDen? max_pages p).getD ∅ := by
  have hne : range_str ≠ [] := by
    intro hemp
    subst hemp
    have hcon := h [] (by simp [splitOnChar])
    rw [numTok_nil] at hcon
    simp at hcon
  obtain ⟨S, hS, hmem⟩ := @foldlM_processPart_some max_pages
    (splitOnChar ',' range_str) [] h
  rw [parse_eq_of_fold_some hne hS]
  intro n
  rw [(List.perm_insertionSort (· ≤ ·) S).mem_iff, hmem n]
  simp

/-- Witness for the amended C3: in `5, 2-9, 1` with 3 pages, the tokens
`5` and `2-9` are numeric but out of range; page 0 (from the in-range token
`1`) relates to the token union exactly as the theorem states. -/
theorem parse_page_range_drops_out_of_range_witness :
    (∀ p ∈ splitOnChar ',' (chars "5, 2-9, 1"), (numTok? p).isSome) ∧
      (0 ∈ parse_page_range (chars "5, 2-9, 1") 3 ↔
        ∃ p ∈ splitOnChar ',' (chars "5, 2-9, 1"), 0 ∈ (tokenDen? 3 p).getD ∅) :=
  ⟨by decide, parse_page_range_drops_out_of_range (chars "5, 2-9, 1") 3 (by decide) 0⟩

/-- Counterexample to C4 as stated: in `abc,2` with 5 pages, the
non-numeric token `abc` appears alongside the valid token `2`; dropping only
the invalid token would yield `[1]`, but `parse_page_range` falls back to
all pages `[0, 1, 2, 3, 4]`. -/
theorem parse_page_range_drop_invalid_counterexample :
    parse_page_range (chars "abc,2") 5 = [0, 1, 2, 3, 4] ∧
      parse_page_range (chars "abc,2") 5 ≠ [1] :=
  ⟨by decide, by decide⟩

/-- C4 (amended): a token that fails to parse numerically is not dropped in
isolation — the exception it raises makes `parse_page_range` discard all
accumulated work and return the full page list `[0, …, max_pages-1]`; only
numeric tokens failing the range check are silently dropped. -/
theorem parse_page_range_invalid_token_all_pages (range_str : List Char)
    (max_pages : Nat)
    (h : ∃ p ∈ splitOnChar ',' range_str, numTok? p = none) :
    parse_page_range range_str max_pages = List.range max_pages := by
  rcases eq_or_ne range_str [] with rfl | hne
  · exact parse_nil max_pages
  · exact parse_eq_of_fold_none hne (foldlM_processPart_none _ _ h)

/-- Witness for the amended C4: `abc,2` with 5 pages contains a
non-numeric token and parses to all five pages. -/
theorem parse_page_range_invalid_token_all_pages_witness :
    (∃ p ∈ splitOnChar ',' (chars "abc,2"), numTok? p = none) ∧
      parse_page_range (chars "abc,2") 5 = List.range 5 :=
  ⟨by decide, parse_page_range_invalid_token_all_pages (chars "abc,2") 5 (by decide)⟩

/-- C5: For every input string whose parsing raises an exception — total
parse failure, e.g. every token is non-numeric — `parse_page_range` returns
the list of all pages `[0, 1, …, max_pages-1]` instead of propagating the
exception. -/
theorem parse_page_range_total_failure_all_pages (range_str : List Char)
    (max_pages : Nat)
    (h : ∀ p ∈ splitOnChar ',' range_str, numTok? p = none) :
    parse_page_range range_str max_pages = List.range max_pages := by
  rcases eq_or_ne range_str [] with rfl | hne
  · exact parse_nil max_pages
  · refine parse_eq_of_fold_none hne (foldlM_processPart_none _ _ ?_)
    rcases hsplit : splitOnChar ',' range_str with _ | ⟨p, ps⟩
    · exact absurd hsplit (splitOnChar_ne_nil ',' range_str)
    · exact ⟨p, List.mem_cons_self _ _,
        h p (by rw [hsplit]; exact List.mem_cons_self _ _)⟩

/-- Witness for C5: on `abc` with 4 pages every token is non-numeric and
the result is all four pages. -/
theorem parse_page_range_total_failure_all_pages_witness :
    (∀ p ∈ splitOnChar ',' (chars "abc"), numTok? p = none) ∧
      parse_page_range (chars "abc") 4 = List.range 4 :=
  ⟨by decide, parse_page_range_total_failure_all_pages (chars "abc") 4 (by decide)⟩

/-- C6: For every input string and every `max_pages`, the list returned by
`parse_page_range` is strictly increasing (hence duplicate-free, even when
tokens overlap such as `1-3, 2`) and every element lies in
`[0, max_pages-1]`. -/
theorem parse_page_range_sorted_bounded (range_str : List Char)
    (max_pages : Nat) :
    List.Sorted (· < ·) (parse_page_range range_str max_pages) ∧
      ∀ n ∈ parse_page_range range_str max_pages, n < max_pages := by
  have hrange : List.Sorted (· < ·) (List.range max_pages) ∧
      ∀ n ∈ List.range max_pages, n < max_pages :=
    ⟨List.pairwise_lt_range max_pages, fun n hn => List.mem_range.mp hn⟩
  rcases eq_or_ne range_str [] with rfl | hne
  · rw [parse_nil]
    exact hrange
  · cases hf : (splitOnChar ',' range_str).foldlM (processPart max_pages) [] with
    | none =>
      rw [parse_eq_of_fold_none hne hf]
      exact hrange
    | some S =>
      rw [parse_eq_of_fold_some hne hf]
      obtain ⟨hnd, hbd⟩ := foldlM_processPart_nodup_bound _ _ _ hf
      refine ⟨sorted_lt_insertionSort (hnd List.nodup_nil), fun n hn => ?_⟩
      rcases hbd n ((List.perm_insertionSort (· ≤ ·) S).mem_iff.mp hn) with hmem | hlt
      · exact absurd hmem (List.not_mem_nil n)
      · exact hlt

/-- Witness for C6: on the overlapping input `1-3, 2` with 9 pages, page
index 1 is in the result and is below the bound. -/
theorem parse_page_range_sorted_bounded_witness :
    1 ∈ parse_page_range (chars "1-3, 2") 9 ∧ 1 < 9 :=
  ⟨by decide, (parse_page_range_sorted_bounded (chars "1-3, 2") 9).2 1 (by decide)⟩

/-! ## Helper lemmas about `convert_ocr` -/

theorem foldl_max_mem : ∀ (xs : List Nat) (acc : Nat),
    xs.foldl Nat.max acc = acc ∨ xs.foldl Nat.max acc ∈ xs
  | [], _ => Or.inl rfl
  | x :: xs, acc => by
    rcases foldl_max_mem xs (Nat.max acc x) with h | h
    · have hm : Nat.max acc x = acc ∨ Nat.max acc x = x := by
        rcases Nat.le_total acc x with hle | hle
        · exact Or.inr (Nat.max_eq_right hle)
        · exact Or.inl (Nat.max_eq_left hle)
      rcases hm with hm | hm
      · exact Or.inl (by rw [List.foldl_cons, h, hm])
      · exact Or.inr (by rw [List.foldl_cons, h, hm]; exact List.mem_cons_self _ _)
    · exact Or.inr (List.mem_cons_of_mem _ h)

theorem foldl_min_mem : ∀ (xs : List Nat) (acc : Nat),
    xs.foldl Nat.min acc = acc ∨ xs.foldl Nat.min acc ∈ xs
  | [], _ => Or.inl rfl
  | x :: xs, acc => by
    rcases foldl_min_mem xs (Nat.min acc x) with h | h
    · have hm : Nat.min acc x = acc ∨ Nat.min acc x = x := by
        rcases Nat.le_total acc x with hle | hle
        · exact Or.inl (Nat.min_eq_left hle)
        · exact Or.inr (Nat.min_eq_right hle)
      rcases hm with hm | hm
      · exact Or.inl (by rw [List.foldl_cons, h, hm])
      · exact Or.inr (by rw [List.foldl_cons, h, hm]; exact List.mem_cons_self _ _)
    · exact Or.inr (List.mem_cons_of_mem _ h)

theorem pyMax_mem {l : List Nat} (h : l ≠ []) : pyMax l ∈ l := by
  cases l with
  | nil => exact absurd rfl h
  | cons x xs =>
    simp only [pyMax]
    rcases foldl_max_mem xs x with hm | hm
    · rw [hm]; exact List.mem_cons_self _ _
    · exact List.mem_cons_of_mem _ hm

theorem pyMin_mem {l : List Nat} (h : l ≠ []) : pyMin l ∈ l := by
  cases l with
  | nil => exact absurd rfl h
  | cons x xs =>
    simp only [pyMin]
    rcases foldl_min_mem xs x with hm | hm
    · rw [hm]; exact List.mem_cons_self _ _
    · exact List.mem_cons_of_mem _ hm

theorem le_foldl_max : ∀ (xs : List Nat) (acc : Nat),
    acc ≤ xs.foldl Nat.max acc ∧ ∀ x ∈ xs, x ≤ xs.foldl Nat.max acc
  | [], acc => ⟨Nat.le_refl acc, fun x hx => absurd hx (List.not_mem_nil x)⟩
  | y :: xs, acc => by
    obtain ⟨h1, h2⟩ := le_foldl_max xs (Nat.max acc y)
    rw [List.foldl_cons]
    refine ⟨Nat.le_trans (Nat.le_max_left acc y) h1, fun x hx => ?_⟩
    rcases List.mem_cons.mp hx with rfl | hx'
    · exact Nat.le_trans (Nat.le_max_right acc x) h1
    · exact h2 x hx'

theorem le_pyMax {l : List Nat} {x : Nat} (hx : x ∈ l) : x ≤ pyMax l := by
  cases l with
  | nil => exact absurd hx (List.not_mem_nil x)
  | cons y xs =>
    simp only [pyMax]
    obtain ⟨h1, h2⟩ := le_foldl_max xs y
    rcases List.mem_cons.mp hx with rfl | hx'
    · exact h1
    · exact h2 x hx'

theorem convert_from_bytes_full {num_pages first_page last_page : Nat}
    (h : last_page ≤ num_pages) :
    convert_from_bytes num_pages first_page last_page =
      List.range' first_page (last_page + 1 - first_page) := by
  unfold convert_from_bytes
  rw [List.filter_eq_self]
  intro p hp
  rw [List.mem_range'_1] at hp
  simp only [decide_eq_true_eq]
  omega

theorem enum_range' (f k : Nat) :
    (List.range' f k).enum = (List.range k).map (fun i => (i, f + i)) := by
  rw [List.range'_eq_map_range, List.enum_eq_zip_range, List.length_map,
    List.length_range]
  have hz := List.zip_map' id (fun i => f + i) (List.range k)
  rw [List.map_id] at hz
  rw [hz]
  simp

/-- The document `convert_ocr` produces, in closed form: a title heading,
then for each 1-indexed page `p` of the contiguous range from the minimum to
the maximum of the (1-indexed) selection, in ascending order, a level-3
heading naming page `p`, a paragraph holding the OCR text of page `p`, and a page
break. -/
theorem convert_ocr_eq (num_pages : Nat) (image_to_string : Nat → List Char)
    (lang_code : List Char) (pages_to_convert : List Nat)
    (hne : pages_to_convert ≠ [])
    (hbd : ∀ p ∈ pages_to_convert, p + 1 ≤ num_pages) :
    convert_ocr num_pages image_to_string lang_code pages_to_convert =
      Block.heading (chars "Documento Convertido por OCR (" ++ lang_code ++ chars ")") 0 ::
        ((List.range' (pyMin (pages_to_convert.map (· + 1)))
            (pyMax (pages_to_convert.map (· + 1)) + 1 -
              pyMin (pages_to_convert.map (· + 1)))).map (fun p =>
          [Block.heading (chars "--- Página " ++ Nat.toDigits 10 p ++ chars " ---") 3,
           Block.paragraph (image_to_string p),
           Block.pageBreak])).flatten := by
  have hne1 : pages_to_convert.map (· + 1) ≠ [] := by
    intro hcon
    exact hne (List.map_eq_nil_iff.mp hcon)
  have hmax : pyMax (pages_to_convert.map (· + 1)) ≤ num_pages := by
    obtain ⟨p, hp, hpe⟩ := List.mem_map.mp (pyMax_mem hne1)
    rw [← hpe]
    exact hbd p hp
  simp only [convert_ocr]
  rw [convert_from_bytes_full hmax]
  congr 1
  rw [enum_range', List.range'_eq_map_range, List.map_map, List.map_map]
  refine congrArg List.flatten (List.map_congr_left (fun i _ => ?_))
  simp only [Function.comp_apply]
  rw [Nat.add_comm i (pyMin (pages_to_convert.map (· + 1)))]

theorem filterMap_para_triples (image_to_string : Nat → List Char) :
    ∀ l : List Nat,
      (((l.map (fun p =>
          [Block.heading (chars "--- Página " ++ Nat.toDigits 10 p ++ chars " ---") 3,
           Block.paragraph (image_to_string p),
           Block.pageBreak])).flatten).filterMap paraText?) =
        l.map image_to_string
  | [] => rfl
  | p :: l => by
    rw [List.map_cons, List.flatten_cons, List.filterMap_append,
      filterMap_para_triples image_to_string l]
    rfl

/-! ## Claims about the dispatch, `convert_ocr`, and the sidebar -/

/-- C7: On each conversion request with a non-empty page list, exactly one of
the two conversion strategies runs, selected by the single mode flag:
`convert_digital` when the mode is digital and `convert_ocr` when the mode is
scanned/OCR, and only the OCR strategy receives the language code parameter
(the digital call carries no language). -/
theorem conversion_mode_dispatch (pdf_bytes : List Nat) (lang : List Char)
    (pages_list : List Nat) (h : pages_list ≠ []) :
    select_conversion modo_digital pdf_bytes lang pages_list =
        some (ConvCall.digital pdf_bytes pages_list) ∧
      select_conversion modo_escaneado pdf_bytes lang pages_list =
        some (ConvCall.ocr pdf_bytes lang pages_list) := by
  have h1 : containsSub (chars "Digital") modo_digital = true := by decide
  have h2 : containsSub (chars "Digital") modo_escaneado = false := by decide
  have h3 : containsSub (chars "Escaneado") modo_escaneado = true := by decide
  constructor <;> simp [select_conversion, h, h1, h2, h3]

/-- Witness for C7: with a one-page selection, the digital option dispatches
to `convert_digital` and the scanned option to `convert_ocr` with the
language code. -/
theorem conversion_mode_dispatch_witness :
    (([0] : List Nat) ≠ []) ∧
      (select_conversion modo_digital [7] (chars "spa") [0] =
          some (ConvCall.digital [7] [0]) ∧
        select_conversion modo_escaneado [7] (chars "spa") [0] =
          some (ConvCall.ocr [7] (chars "spa") [0])) :=
  ⟨by decide, conversion_mode_dispatch [7] (chars "spa") [0] (by decide)⟩

/-- C8: For every non-empty page selection (within the document), the
document produced by `convert_ocr` consists of a title heading followed by,
for each processed page in ascending page order, a level-3 heading naming
that page, then a paragraph containing the OCR text of that page, then a page
break. -/
theorem convert_ocr_document_structure (num_pages : Nat)
    (image_to_string : Nat → List Char) (lang_code : List Char)
    (pages_to_convert : List Nat) (hne : pages_to_convert ≠ [])
    (hbd : ∀ p ∈ pages_to_convert, p + 1 ≤ num_pages) :
    convert_ocr num_pages image_to_string lang_code pages_to_convert =
      Block.heading (chars "Documento Convertido por OCR (" ++ lang_code ++ chars ")") 0 ::
        ((List.range' (pyMin (pages_to_convert.map (· + 1)))
            (pyMax (pages_to_convert.map (· + 1)) + 1 -
              pyMin (pages_to_convert.map (· + 1)))).map (fun p =>
          [Block.heading (chars "--- Página " ++ Nat.toDigits 10 p ++ chars " ---") 3,
           Block.paragraph (image_to_string p),
           Block.pageBreak])).flatten :=
  convert_ocr_eq num_pages image_to_string lang_code pages_to_convert hne hbd

/-- Witness for C8: the selection `[0, 2]` of a 3-page document yields the
title heading and then heading/paragraph/page-break triples for pages 1, 2
and 3 in order. -/
theorem convert_ocr_document_structure_witness :
    (([0, 2] : List Nat) ≠ []) ∧ (∀ p ∈ ([0, 2] : List Nat), p + 1 ≤ 3) ∧
      convert_ocr 3 (fun n => Nat.toDigits 10 n) (chars "spa") [0, 2] =
        Block.heading (chars "Documento Convertido por OCR (" ++ chars "spa" ++ chars ")") 0 ::
          ((List.range' (pyMin (([0, 2] : List Nat).map (· + 1)))
              (pyMax (([0, 2] : List Nat).map (· + 1)) + 1 -
                pyMin (([0, 2] : List Nat).map (· + 1)))).map (fun p =>
            [Block.heading (chars "--- Página " ++ Nat.toDigits 10 p ++ chars " ---") 3,
             Block.paragraph (Nat.toDigits 10 p),
             Block.pageBreak])).flatten :=
  ⟨by decide, by decide,
    convert_ocr_document_structure 3 (fun n => Nat.toDigits 10 n) (chars "spa")
      [0, 2] (by decide) (by decide)⟩

/-- C9: Whenever either external binary (the tesseract OCR engine or the
pdftoppm rasterizer) is absent from the system PATH, the OCR mode selector is
disabled (the `disabled` flag of the radio widget is set) and a user-visible
error diagnostic is shown in the sidebar.  (The dependency check itself is a
total function of the two `shutil.which` results — finding neither binary
cannot raise.) -/
theorem missing_binary_disables_ocr (tesseract_ok poppler_ok : Bool)
    (h : tesseract_ok = false ∨ poppler_ok = false) :
    ocr_disabled tesseract_ok poppler_ok = true ∧
      ∃ msg ∈ sidebar_msgs tesseract_ok poppler_ok,
        msg.kind = MsgKind.error := by
  rcases h with rfl | rfl
  · cases poppler_ok <;> exact ⟨rfl, by decide⟩
  · cases tesseract_ok <;> exact ⟨rfl, by decide⟩

/-- Witness for C9: with tesseract missing and poppler present, OCR is
disabled and an error message is shown. -/
theorem missing_binary_disables_ocr_witness :
    ((false : Bool) = false ∨ (true : Bool) = false) ∧
      (ocr_disabled false true = true ∧
        ∃ msg ∈ sidebar_msgs false true, msg.kind = MsgKind.error) :=
  ⟨Or.inl rfl, missing_binary_disables_ocr false true (Or.inl rfl)⟩

/-- C10: For every non-empty 0-indexed page selection (within the document),
`convert_ocr` processes the contiguous 1-indexed range from
`min(selection)+1` through `max(selection)+1` inclusive, not only the
selected pages: the OCR-text paragraphs of the produced document are exactly
the texts of every page of that contiguous range, in order. -/
theorem convert_ocr_contiguous_range (num_pages : Nat)
    (image_to_string : Nat → List Char) (lang_code : List Char)
    (pages_to_convert : List Nat) (hne : pages_to_convert ≠ [])
    (hbd : ∀ p ∈ pages_to_convert, p + 1 ≤ num_pages) :
    (convert_ocr num_pages image_to_string lang_code
        pages_to_convert).filterMap paraText? =
      (List.range' (pyMin (pages_to_convert.map (· + 1)))
        (pyMax (pages_to_convert.map (· + 1)) + 1 -
          pyMin (pages_to_convert.map (· + 1)))).map image_to_string := by
  rw [convert_ocr_eq num_pages image_to_string lang_code pages_to_convert hne hbd,
    List.filterMap_cons]
  exact filterMap_para_triples image_to_string _

/-- Witness for C10: the non-contiguous selection `[0, 4]` of a 6-page
document is OCR-processed as the full contiguous page range 1 through 5. -/
theorem convert_ocr_contiguous_range_witness :
    (([0, 4] : List Nat) ≠ []) ∧ (∀ p ∈ ([0, 4] : List Nat), p + 1 ≤ 6) ∧
      (convert_ocr 6 (fun n => Nat.toDigits 10 n) (chars "spa")
          [0, 4]).filterMap paraText? =
        (List.range' (pyMin (([0, 4] : List Nat).map (· + 1)))
          (pyMax (([0, 4] : List Nat).map (· + 1)) + 1 -
            pyMin (([0, 4] : List Nat).map (· + 1)))).map (fun n => Nat.toDigits 10 n) :=
  ⟨by decide, by decide,
    convert_ocr_contiguous_range 6 (fun n => Nat.toDigits 10 n) (chars "spa")
      [0, 4] (by decide) (by decide)⟩

end TransformarPdf
